import Mathlib

/-!
Verification development for the realtime-agent-console repository.

The repository is a small React client around the OpenAI realtime API:
`App` (src/unnamed/part_000) owns the session lifecycle (`startSession`,
`stopSession`), the data channel (`sendClientEvent`, the message/open
listeners) and the shared newest-first `events` list; `EventLog.jsx`
renders the list with delta-type coalescing; `ToolPanel.jsx` (the
variant with the `control_snake` tool, lines 488-591) registers the tool
manifest once per session and routes `response.done` function-call
outputs.

The definitions below are a shallow embedding of that code: React state
becomes explicit record state, `setX` calls become functional updates,
`setTimeout` becomes an explicit `schedule` action, `console.error`
diagnostics become explicit error results/actions, `JSON.parse` (an
external platform facility) becomes an `Option`-valued parameter, and
`crypto.randomUUID` becomes an injective id supply indexed by a counter.
-/

namespace RealtimeConsole

/-- One entry of a `response.done` event's `response.output` array, as
consumed by ToolPanel (`output.type`, `output.name`, `output.arguments`);
`arguments` is the raw JSON-encoded string. -/
structure FnOutput where
  type : String
  name : String
  arguments : String
deriving DecidableEq

/-- The `response` payload of an event: `output` is the function-call
output array (absent field modelled as `none`; a present-but-empty array
is `some []`), `instructions` is the field ToolPanel puts on its
follow-up `response.create` events. -/
structure Response where
  output : Option (List FnOutput) := none
  instructions : Option String := none
deriving DecidableEq

/-- A wire event as the client code sees it: `event_id` (absent until
assigned), `type`, optional `response` payload, optional `command`
payload (used by the `snake.command` listener in ToolPanel), and the
tool names of a `session.update` manifest (abbreviating the full tool
schema array, whose contents no claim depends on). -/
structure Event where
  event_id : Option String := none
  type : String := ""
  response : Option Response := none
  command : Option String := none
  sessionTools : Option (List String) := none
deriving DecidableEq

/-- JavaScript `s.endsWith(pat)`, embedded through the character list of
the string so that it evaluates by structural recursion. -/
def endsWithStr (s pat : String) : Bool :=
  pat.data.isSuffixOf s.data

/-! ## EventLog (src/client/components/EventLog.jsx, lines 38-62)

`EventLog` walks the `events` list (newest-first, as built by `App`) and
builds `eventsToDisplay`: an event whose `type` ends in `"delta"` is
pushed only on the first occurrence of that type in the walk (the
`deltaEvents` map records every delta type already seen); later events
of the same delta type are skipped; non-delta events are always pushed. -/

/-- Helper for `eventsToDisplay`: `seen` is the set of delta types
already recorded in the `deltaEvents` map. -/
def displayAux : List String → List Event → List Event
  | _, [] => []
  | seen, e :: es =>
    match endsWithStr e.type "delta" with
    | true =>
      match seen.contains e.type with
      | true => displayAux seen es
      | false => e :: displayAux (e.type :: seen) es
    | false => e :: displayAux seen es

/-- EventLog.jsx lines 38-62: the displayed sequence computed from the
newest-first events list. -/
def eventsToDisplay (events : List Event) : List Event :=
  displayAux [] events

theorem displayAux_filter_of_seen (t : String) (ht : endsWithStr t "delta" = true) :
    ∀ (seen : List String) (l : List Event), seen.contains t = true →
      (displayAux seen l).filter (fun e => e.type == t) = [] := by
  intro seen l
  induction l generalizing seen with
  | nil => intro _; simp [displayAux]
  | cons e es ih =>
    intro hseen
    by_cases heq : e.type = t
    · subst heq
      rw [displayAux, ht, hseen]
      exact ih seen hseen
    · have hne : (e.type == t) = false := by simpa using heq
      cases hd : endsWithStr e.type "delta" with
      | true =>
        cases hc : seen.contains e.type with
        | true =>
          rw [displayAux, hd, hc]
          exact ih seen hseen
        | false =>
          rw [displayAux, hd, hc, List.filter_cons_of_neg (by simp [hne])]
          refine ih (e.type :: seen) ?_
          simp only [List.contains_cons, Bool.or_eq_true]
          exact Or.inr hseen
      | false =>
        rw [displayAux, hd, List.filter_cons_of_neg (by simp [hne])]
        exact ih seen hseen

theorem displayAux_filter_of_unseen (t : String) (ht : endsWithStr t "delta" = true) :
    ∀ (seen : List String) (l : List Event), seen.contains t = false →
      (displayAux seen l).filter (fun e => e.type == t)
        = (l.find? (fun e => e.type == t)).toList := by
  intro seen l
  induction l generalizing seen with
  | nil => intro _; simp [displayAux]
  | cons e es ih =>
    intro hseen
    by_cases heq : e.type = t
    · subst heq
      rw [displayAux, ht, hseen,
        List.filter_cons_of_pos (by simp), List.find?_cons_of_pos _ (by simp)]
      have hrest : (displayAux (e.type :: seen) es).filter (fun x => x.type == e.type) = [] := by
        refine displayAux_filter_of_seen e.type ht (e.type :: seen) es ?_
        simp
      rw [hrest]
      rfl
    · have hne : (e.type == t) = false := by simpa using heq
      have hfind : ((e :: es).find? (fun x => x.type == t))
          = es.find? (fun x => x.type == t) :=
        List.find?_cons_of_neg es (by simp [hne])
      cases hd : endsWithStr e.type "delta" with
      | true =>
        cases hc : seen.contains e.type with
        | true =>
          rw [displayAux, hd, hc, ih seen hseen, hfind]
        | false =>
          rw [displayAux, hd, hc, List.filter_cons_of_neg (by simp [hne])]
          have hseen' : (e.type :: seen).contains t = false := by
            simp only [List.contains_cons, Bool.or_eq_false_iff]
            exact ⟨by simpa using fun h => heq h.symm, hseen⟩
          rw [ih (e.type :: seen) hseen', hfind]
      | false =>
        rw [displayAux, hd, List.filter_cons_of_neg (by simp [hne]),
          ih seen hseen, hfind]

theorem displayAux_sublist : ∀ (seen : List String) (l : List Event),
    (displayAux seen l).Sublist l := by
  intro seen l
  induction l generalizing seen with
  | nil => simp [displayAux]
  | cons e es ih =>
    cases hd : endsWithStr e.type "delta" with
    | true =>
      cases hc : seen.contains e.type with
      | true =>
        rw [displayAux, hd, hc]
        exact (ih seen).cons e
      | false =>
        rw [displayAux, hd, hc]
        exact (ih (e.type :: seen)).cons₂ e
    | false =>
      rw [displayAux, hd]
      exact (ih seen).cons₂ e

/-- Claim C4: in the displayed log built from the newest-first events
list, each delta type (type ending in `"delta"`) is retained exactly
once, the retained entry is the first occurrence in the newest-first
list — i.e. the most recently received event of that type — and the
displayed sequence is a sublist of the events list, so the retained
entry occupies the position of the first occurrence of its type in the
displayed order. -/
theorem eventlog_retains_latest_delta (l : List Event) (t : String) (e₀ : Event)
    (ht : endsWithStr t "delta" = true)
    (hfind : l.find? (fun e => e.type == t) = some e₀) :
    (eventsToDisplay l).filter (fun e => e.type == t) = [e₀]
      ∧ (eventsToDisplay l).Sublist l := by
  constructor
  · rw [eventsToDisplay, displayAux_filter_of_unseen t ht [] l (by simp), hfind]
    rfl
  · exact displayAux_sublist [] l

/-- Witness for C4 at a concrete input: two events of the same delta
type, newest-first; the display retains only the newest. -/
theorem eventlog_retains_latest_delta_witness :
    let newer : Event := { event_id := some "event_2", type := "response.audio.delta" }
    let older : Event := { event_id := some "event_1", type := "response.audio.delta" }
    (eventsToDisplay [newer, older]).filter (fun e => e.type == "response.audio.delta")
        = [newer]
      ∧ (eventsToDisplay [newer, older]).Sublist [newer, older] := by
  intro newer older
  exact eventlog_retains_latest_delta [newer, older] "response.audio.delta" newer
    (by decide) (by decide)

/-! ## App (src/unnamed/part_000, lines 190-311)

`App` holds `isSessionActive`, the shared newest-first `events` list,
and the `dataChannel`/`peerConnection` references. JavaScript object
references are modelled as numeric ids (`none` = null); `ctr` is the
cursor into the fresh-id supply `gen` that models successive calls of
`crypto.randomUUID()`. -/

/-- React state of `App` (useState/useRef initializers, lines 191-196)
plus the id-supply cursor. -/
structure AppState where
  isSessionActive : Bool := false
  events : List Event := []
  dataChannel : Option Nat := none
  peerConnection : Option Nat := none
  ctr : Nat := 0
deriving DecidableEq

/-- The initial `App` state: session inactive, no events, no channel,
no peer connection. -/
def initialAppState : AppState := {}

/-- Outcome of one `sendClientEvent` call: either the message (with its
final `event_id`) was serialized and transmitted on the channel, or
there was no data channel and the failure branch ran — the
`console.error` diagnostic, modelled as the `channelError` result; the
event is neither sent nor queued in that case. -/
inductive SendResult where
  | sent (wire : Event)
  | channelError
deriving DecidableEq

/-- src/unnamed/part_000 lines 261-272 (`sendClientEvent`): with a data
channel present, `message.event_id = message.event_id || crypto.randomUUID()`
(the supply `gen` is consulted, and the cursor advanced, only when the
message carries no id), the message is transmitted and prepended to
`events`; with no channel the call fails with the error diagnostic and
the state is untouched. -/
def sendClientEvent (gen : Nat → String) (s : AppState) (message : Event) :
    AppState × SendResult :=
  match s.dataChannel with
  | some _ =>
    match message.event_id with
    | some id =>
      let wire := { message with event_id := some id }
      ({ s with events := wire :: s.events }, .sent wire)
    | none =>
      let wire := { message with event_id := some (gen s.ctr) }
      ({ s with events := wire :: s.events, ctr := s.ctr + 1 }, .sent wire)
  | none => (s, .channelError)

/-- Resource-release calls made by `stopSession` (`dataChannel.close()`,
`peerConnection.current.close()`). -/
inductive CloseAct where
  | closeChannel (id : Nat)
  | closePeerConnection (id : Nat)
deriving DecidableEq

/-- src/unnamed/part_000 lines 247-258 (`stopSession`): `close()` is
invoked only on the resources that are present (the null checks), then
`isSessionActive := false`, `dataChannel := null`,
`peerConnection.current := null`. The `events` list is not touched. -/
def stopSession (s : AppState) : AppState × List CloseAct :=
  let acts :=
    (match s.dataChannel with
      | some id => [CloseAct.closeChannel id]
      | none => [])
    ++ (match s.peerConnection with
      | some id => [CloseAct.closePeerConnection id]
      | none => [])
  ({ s with isSessionActive := false, dataChannel := none, peerConnection := none },
    acts)

/-- The `Closed` session state of the spec, in `App` terms: inactive,
channel and peer connection both released. -/
def isClosed (s : AppState) : Prop :=
  s.isSessionActive = false ∧ s.dataChannel = none ∧ s.peerConnection = none

/-- src/unnamed/part_000 lines 307-310: the data-channel `open`
listener sets `isSessionActive` to true and resets `events` to `[]`. -/
def handleChannelOpen (s : AppState) : AppState :=
  { s with isSessionActive := true, events := [] }

/-- src/unnamed/part_000 lines 298-305: the data-channel `message`
listener decodes the raw payload (`JSON.parse`, modelled by the
parameter `dec`) and prepends the decoded event; on decode failure the
error is logged and the state is unchanged. -/
def handleChannelMessage (dec : String → Option Event) (s : AppState)
    (raw : String) : AppState :=
  match dec raw with
  | some data => { s with events := data :: s.events }
  | none => s

/-- Claim C5: `stopSession` is total (no error on any state, including a
never-started one), always lands in the `Closed` state, is idempotent,
and a second stop — or a stop of the never-started initial state —
performs no release calls at all (nothing is closed twice). -/
theorem stop_unconditional_idempotent (s : AppState) :
    isClosed (stopSession s).1
      ∧ (stopSession (stopSession s).1).1 = (stopSession s).1
      ∧ (stopSession (stopSession s).1).2 = []
      ∧ isClosed (stopSession initialAppState).1
      ∧ (stopSession initialAppState).2 = [] := by
  refine ⟨⟨rfl, rfl, rfl⟩, rfl, rfl, ⟨rfl, rfl, rfl⟩, rfl⟩

/-- Counterexample to claim C9 as stated: stopping a session with
recorded history does not empty the history — `stopSession` never
touches `events` (the log is emptied by the channel `open` listener
instead). -/
theorem stop_does_not_clear_history_cex :
    (stopSession
        { isSessionActive := true,
          events := [{ event_id := some "event_1", type := "session.created" }],
          dataChannel := some 0, peerConnection := some 0 }).1.events ≠ [] := by
  decide

/-- Claim C9 (amended): the event history survives `stopSession`
unchanged; it is dropped when the next session's data channel opens —
the `open` listener clears `events` and marks the session active. -/
theorem history_cleared_on_open_not_on_stop (s : AppState) :
    (stopSession s).1.events = s.events
      ∧ (handleChannelOpen s).events = []
      ∧ (handleChannelOpen s).isSessionActive = true := by
  exact ⟨rfl, rfl, rfl⟩

/-- Claim C3: `sendClientEvent` with no open data channel fails with the
channel-error outcome returned synchronously from the call itself, and
the state is completely unchanged — the event is not queued (no change
to `events`), no id is assigned (no change to `ctr`), and nothing is
transmitted. -/
theorem send_without_channel_rejected (gen : Nat → String) (s : AppState)
    (m : Event) (h : s.dataChannel = none) :
    sendClientEvent gen s m = (s, SendResult.channelError) := by
  unfold sendClientEvent
  rw [h]

/-- Witness for C3: a concrete send against the never-started state is
rejected with the channel error and changes nothing. -/
theorem send_without_channel_rejected_witness :
    sendClientEvent (fun n => toString n) initialAppState
        { type := "response.create" }
      = (initialAppState, SendResult.channelError) :=
  send_without_channel_rejected (fun n => toString n) initialAppState
    { type := "response.create" } rfl

/-! ## Id assignment across a sequence of sends (claim C8) -/

/-- A sequence of successive `sendClientEvent` calls, collecting the
transmitted wire messages in call order. -/
def sendAll (gen : Nat → String) (s : AppState) : List Event → AppState × List Event
  | [] => (s, [])
  | m :: ms =>
    let r := sendClientEvent gen s m
    let rest := sendAll gen r.1 ms
    match r.2 with
    | .sent w => (rest.1, w :: rest.2)
    | .channelError => rest

theorem sendClientEvent_open_noid (gen : Nat → String) (s : AppState) (m : Event)
    (c : Nat) (hc : s.dataChannel = some c) (hm : m.event_id = none) :
    sendClientEvent gen s m =
      ({ s with
          events := (({ m with event_id := some (gen s.ctr) } : Event) :: s.events),
          ctr := s.ctr + 1 },
        SendResult.sent { m with event_id := some (gen s.ctr) }) := by
  unfold sendClientEvent
  rw [hc, hm]

theorem sendAll_ids (gen : Nat → String) :
    ∀ (ms : List Event) (s : AppState) (c : Nat), s.dataChannel = some c →
      (∀ m ∈ ms, m.event_id = none) →
      (sendAll gen s ms).2.map Event.event_id
        = (List.range' s.ctr ms.length).map (fun n => some (gen n)) := by
  intro ms
  induction ms with
  | nil => intro s c _ _; simp [sendAll]
  | cons m ms ih =>
    intro s c hc hm
    have hm0 : m.event_id = none := hm m (List.mem_cons_self m ms)
    rw [sendAll]
    rw [sendClientEvent_open_noid gen s m c hc hm0]
    simp only [List.length_cons, List.range'_succ, List.map_cons, List.map]
    have hc' : ({ s with
        events := (({ m with event_id := some (gen s.ctr) } : Event) :: s.events),
        ctr := s.ctr + 1 } : AppState).dataChannel = some c := hc
    rw [ih _ c hc' (fun x hx => hm x (List.mem_cons_of_mem m hx))]

/-- Claim C8: with an open channel, a run of `sendClientEvent` calls on
events carrying no id assigns each a fresh id from the supply, and (for
an injective supply, the model of `crypto.randomUUID`) the assigned ids
are pairwise distinct; an event that already carries an id is
transmitted unchanged, id included. -/
theorem send_ids_unique (gen : Nat → String) (hgen : Function.Injective gen)
    (s : AppState) (c : Nat) (ms : List Event)
    (hc : s.dataChannel = some c)
    (hm : ∀ m ∈ ms, m.event_id = none) :
    ((sendAll gen s ms).2.map Event.event_id).Nodup
      ∧ ∀ (m : Event) (id : String), m.event_id = some id →
          (sendClientEvent gen s m).2 = SendResult.sent m := by
  constructor
  · rw [sendAll_ids gen ms s c hc hm]
    refine (List.nodup_range' s.ctr ms.length).map ?_
    intro a b hab
    exact hgen (Option.some.inj hab)
  · intro m id hid
    have hwire : { m with event_id := some id } = m := by
      cases m
      simp_all
    unfold sendClientEvent
    rw [hc, hid]
    simp [hwire]

/-- Witness for C8: two id-less sends on an open channel get distinct
fresh ids, and a message with a preset id keeps it. -/
theorem send_ids_unique_witness :
    (((sendAll (fun n => String.mk (List.replicate n 'u'))
          { dataChannel := some 0, isSessionActive := true }
          [{ type := "response.create" }, { type := "session.update" }]).2.map
        Event.event_id).Nodup
      ∧ ∀ (m : Event) (id : String), m.event_id = some id →
          (sendClientEvent (fun n => String.mk (List.replicate n 'u'))
              { dataChannel := some 0, isSessionActive := true } m).2
            = SendResult.sent m) := by
  refine send_ids_unique (fun n => String.mk (List.replicate n 'u')) ?_
    { dataChannel := some 0, isSessionActive := true } 0
    [{ type := "response.create" }, { type := "session.update" }] rfl ?_
  · intro a b h
    have h2 : List.replicate a 'u' = List.replicate b 'u' := congrArg String.data h
    simpa using congrArg List.length h2
  · intro m hmem
    fin_cases hmem <;> rfl

/-! ## Newest-first ordering of the shared events list (claim C10) -/

/-- One interaction with the channel from the App side: a
`sendClientEvent` call, or the arrival of a raw message at the
`message` listener. -/
inductive AppOp where
  | send (message : Event)
  | receive (raw : String)

/-- The state change one interaction causes. -/
def appStep (dec : String → Option Event) (gen : Nat → String)
    (s : AppState) : AppOp → AppState
  | .send m => (sendClientEvent gen s m).1
  | .receive raw => handleChannelMessage dec s raw

/-- Run a sequence of interactions. -/
def runApp (dec : String → Option Event) (gen : Nat → String)
    (s : AppState) : List AppOp → AppState
  | [] => s
  | op :: ops => runApp dec gen (appStep dec gen s op) ops

/-- The events one interaction adds to the shared list: the transmitted
wire message of a successful send, or the decoded inbound event;
nothing for a rejected send or an undecodable message. -/
def opRecord (dec : String → Option Event) (gen : Nat → String)
    (s : AppState) : AppOp → List Event
  | .send m =>
    match (sendClientEvent gen s m).2 with
    | .sent w => [w]
    | .channelError => []
  | .receive raw =>
    match dec raw with
    | some data => [data]
    | none => []

/-- The chronological (oldest-first) record of all events added along a
run. -/
def recordedEvents (dec : String → Option Event) (gen : Nat → String)
    (s : AppState) : List AppOp → List Event
  | [] => []
  | op :: ops =>
    opRecord dec gen s op ++ recordedEvents dec gen (appStep dec gen s op) ops

theorem appStep_events (dec : String → Option Event) (gen : Nat → String)
    (s : AppState) (op : AppOp) :
    (appStep dec gen s op).events = opRecord dec gen s op ++ s.events := by
  cases op with
  | send m =>
    cases hc : s.dataChannel with
    | none => simp [appStep, opRecord, sendClientEvent, hc]
    | some c =>
      cases hid : m.event_id with
      | none => simp [appStep, opRecord, sendClientEvent, hc, hid]
      | some id => simp [appStep, opRecord, sendClientEvent, hc, hid]
  | receive raw =>
    cases hdec : dec raw with
    | none => simp [appStep, opRecord, handleChannelMessage, hdec]
    | some data => simp [appStep, opRecord, handleChannelMessage, hdec]

theorem opRecord_reverse (dec : String → Option Event) (gen : Nat → String)
    (s : AppState) (op : AppOp) :
    (opRecord dec gen s op).reverse = opRecord dec gen s op := by
  cases op with
  | send m =>
    cases h : (sendClientEvent gen s m).2 with
    | sent w => simp [opRecord, h]
    | channelError => simp [opRecord, h]
  | receive raw =>
    cases h : dec raw with
    | some data => simp [opRecord, h]
    | none => simp [opRecord, h]

theorem runApp_events (dec : String → Option Event) (gen : Nat → String) :
    ∀ (ops : List AppOp) (s : AppState),
      (runApp dec gen s ops).events
        = (recordedEvents dec gen s ops).reverse ++ s.events := by
  intro ops
  induction ops with
  | nil => intro s; simp [runApp, recordedEvents]
  | cons op ops ih =>
    intro s
    rw [runApp, recordedEvents, ih (appStep dec gen s op), appStep_events,
      List.reverse_append, List.append_assoc, opRecord_reverse]

/-- Claim C10: along any run of sends and receives from an empty log,
the shared events list equals the reverse of the chronological record —
every successful send prepends its wire message and every decoded
receive prepends the decoded event — so the head of the list is the most
recently sent-or-received event and the last element is the oldest. -/
theorem events_newest_first (dec : String → Option Event) (gen : Nat → String)
    (s : AppState) (ops : List AppOp) (hev : s.events = []) :
    (runApp dec gen s ops).events = (recordedEvents dec gen s ops).reverse
      ∧ (runApp dec gen s ops).events.head?
          = (recordedEvents dec gen s ops).getLast?
      ∧ (runApp dec gen s ops).events.getLast?
          = (recordedEvents dec gen s ops).head?
      ∧ (∀ (u : AppState) (m : Event) (u' : AppState) (w : Event),
          sendClientEvent gen u m = (u', SendResult.sent w) →
            u'.events = w :: u.events)
      ∧ (∀ (u : AppState) (raw : String) (data : Event), dec raw = some data →
          handleChannelMessage dec u raw = { u with events := data :: u.events }) := by
  have hmain : (runApp dec gen s ops).events
      = (recordedEvents dec gen s ops).reverse := by
    rw [runApp_events, hev, List.append_nil]
  refine ⟨hmain, ?_, ?_, ?_, ?_⟩
  · rw [hmain, List.head?_reverse]
  · rw [hmain, List.getLast?_reverse]
  · intro u m u' w h
    unfold sendClientEvent at h
    cases hc : u.dataChannel with
    | none =>
      rw [hc] at h
      exact absurd (congrArg Prod.snd h) (by simp)
    | some c =>
      rw [hc] at h
      cases hid : m.event_id with
      | none =>
        rw [hid] at h
        have h1 := congrArg Prod.fst h
        have h2 := congrArg Prod.snd h
        simp only at h1 h2
        cases h2
        rw [← h1]
      | some id =>
        rw [hid] at h
        have h1 := congrArg Prod.fst h
        have h2 := congrArg Prod.snd h
        simp only at h1 h2
        cases h2
        rw [← h1]
  · intro u raw data h
    unfold handleChannelMessage
    rw [h]

/-- Witness for C10: a concrete run — one send on an open channel, one
decoded receive — yields the newest-first list with the receive at the
head. -/
theorem events_newest_first_witness :
    let dec := fun raw =>
      if raw = "srv" then some { event_id := some "event_9", type := "response.done" }
      else none
    let gen := fun n => String.mk (List.replicate n 'u')
    let s : AppState := { dataChannel := some 0, isSessionActive := true }
    let ops := [AppOp.send { type := "response.create" }, AppOp.receive "srv"]
    (runApp dec gen s ops).events = (recordedEvents dec gen s ops).reverse
      ∧ (runApp dec gen s ops).events.head?
          = (recordedEvents dec gen s ops).getLast?
      ∧ (runApp dec gen s ops).events.getLast?
          = (recordedEvents dec gen s ops).head?
      ∧ (∀ (u : AppState) (m : Event) (u' : AppState) (w : Event),
          sendClientEvent gen u m = (u', SendResult.sent w) →
            u'.events = w :: u.events)
      ∧ (∀ (u : AppState) (raw : String) (data : Event), dec raw = some data →
          handleChannelMessage dec u raw = { u with events := data :: u.events }) := by
  intro dec gen s ops
  exact events_newest_first dec gen s ops rfl

/-! ## ToolPanel (src/client/components/ToolPanel.jsx, lines 488-591)

The ToolPanel variant with the `control_snake` tool. Its React state is
`functionAdded` (the registration flag), `functionCallOutput`,
`activeFunction` and `snakeCommand`; its three effects react to changes
of `events` (registration + function-call routing, lines 498-545, and
the `snake.command` listener, lines 555-562) and of `isSessionActive`
(lines 547-553). `JSON.parse` on function-call arguments is the
parameter `parse`; a `setTimeout` becomes a `schedule` action and the
`catch` diagnostics a `validationError` action. -/

/-- The result of `JSON.parse(output.arguments)` when it succeeds, as
used by the dispatcher: only the destructured `direction` property is
consulted (absent property = `none`). -/
structure ParsedArgs where
  direction : Option String := none
deriving DecidableEq

/-- React state of `ToolPanel` (useState initializers, lines 493-496). -/
structure PanelState where
  functionAdded : Bool := false
  functionCallOutput : Option FnOutput := none
  activeFunction : Option String := none
  snakeCommand : Option String := none
deriving DecidableEq

/-- Side effects the ToolPanel effects perform besides state updates:
an inline `sendClientEvent` call, a `setTimeout`-deferred
`sendClientEvent` (one-shot, with its delay in ms), or the
`console.error` diagnostics of the argument-parse `catch` branch. -/
inductive PanelAction where
  | sendEvent (e : Event)
  | schedule (delayMs : Nat) (e : Event)
  | validationError (rawArguments : String)
deriving DecidableEq

/-- ToolPanel.jsx lines 269-349: the capability manifest, abbreviated to
its event type and tool names. -/
def sessionUpdate : Event :=
  { type := "session.update",
    sessionTools := some ["control_snake", "display_color_palette", "create_pixel_art"] }

/-- ToolPanel.jsx lines 531-533: the follow-up instruction text chosen
by tool name (literal text abbreviated to an apostrophe-free
paraphrase; no claim depends on the wording). -/
def followUpInstructions (name : String) : String :=
  if name = "create_pixel_art" then
    "ask for feedback about the pixel art, just ask if they like it"
  else
    "ask for feedback about the color palette, just ask if they like the colors"

/-- ToolPanel.jsx lines 528-535: the deferred follow-up
`response.create` event. -/
def followUpEvent (name : String) : Event :=
  { type := "response.create",
    response := some { instructions := some (followUpInstructions name) } }

/-- ToolPanel.jsx lines 512-542: handling of one entry of
`response.output`. Non-function-call entries are ignored. For a
function call, the arguments are parsed first; on failure the `catch`
branch records the diagnostics and nothing else happens for this entry.
On success the output is stored and its name made active; for
`control_snake` the parsed `direction` is forwarded as the live snake
command (no follow-up), for every other tool a one-shot deferred
follow-up send is scheduled with a 500 ms delay. -/
def handleOutput (parse : String → Option ParsedArgs) (s : PanelState)
    (o : FnOutput) : PanelState × List PanelAction :=
  if o.type = "function_call" then
    match parse o.arguments with
    | none => (s, [PanelAction.validationError o.arguments])
    | some p =>
      let s1 := { s with functionCallOutput := some o, activeFunction := some o.name }
      if o.name = "control_snake" then
        ({ s1 with snakeCommand := p.direction }, [])
      else
        (s1, [PanelAction.schedule 500 (followUpEvent o.name)])
  else (s, [])

/-- ToolPanel.jsx line 512 (`forEach`): the outputs of one batch are
handled left to right, actions accumulated in order. -/
def handleOutputs (parse : String → Option ParsedArgs) (s : PanelState) :
    List FnOutput → PanelState × List PanelAction
  | [] => (s, [])
  | o :: os =>
    let r := handleOutput parse s o
    let rest := handleOutputs parse r.1 os
    (rest.1, r.2 ++ rest.2)

/-- ToolPanel.jsx lines 501-505: on the first `session.created` (read
from the oldest entry of the newest-first list) with the flag unset,
send the manifest and set the flag. -/
def registrationStep (s : PanelState) (firstEvent : Event) :
    PanelState × List PanelAction :=
  if s.functionAdded = false ∧ firstEvent.type = "session.created" then
    ({ s with functionAdded := true }, [PanelAction.sendEvent sessionUpdate])
  else (s, [])

/-- ToolPanel.jsx lines 498-545: the events effect — registration check
on the oldest event, then function-call routing on the newest event if
it is a `response.done` carrying an output array. -/
def eventsEffect (parse : String → Option ParsedArgs) (s : PanelState)
    (events : List Event) : PanelState × List PanelAction :=
  match events with
  | [] => (s, [])
  | mostRecent :: rest =>
    let r1 := registrationStep s ((mostRecent :: rest).getLast (by simp))
    if mostRecent.type = "response.done"
        ∧ (mostRecent.response.bind Response.output).isSome then
      let r2 := handleOutputs parse r1.1
        ((mostRecent.response.bind Response.output).getD [])
      (r2.1, r1.2 ++ r2.2)
    else r1

/-- ToolPanel.jsx lines 555-562: the `snake.command` listener on the
newest event. -/
def snakeCommandEffect (s : PanelState) (events : List Event) : PanelState :=
  match events with
  | [] => s
  | lastEvent :: _ =>
    if lastEvent.type = "snake.command" then
      { s with snakeCommand := lastEvent.command }
    else s

/-- ToolPanel.jsx lines 547-553: when `isSessionActive` turns false the
registration flag and the function-call state are reset
(`snakeCommand` is not). -/
def sessionInactiveEffect (s : PanelState) : PanelState :=
  { s with
    functionAdded := false,
    functionCallOutput := none,
    activeFunction := none }

/-- A dependency change that reruns a ToolPanel effect: a new `events`
snapshot, or a change of `isSessionActive`. -/
inductive Stim where
  | eventsChanged (events : List Event)
  | activeChanged (isSessionActive : Bool)
deriving DecidableEq

/-- One effect round of ToolPanel for one dependency change. -/
def panelStep (parse : String → Option ParsedArgs) (s : PanelState) :
    Stim → PanelState × List PanelAction
  | .eventsChanged events =>
    let r := eventsEffect parse s events
    (snakeCommandEffect r.1 events, r.2)
  | .activeChanged b =>
    if b = false then (sessionInactiveEffect s, []) else (s, [])

/-- Run ToolPanel over a sequence of dependency changes, accumulating
actions. -/
def runPanel (parse : String → Option ParsedArgs) (s : PanelState) :
    List Stim → PanelState × List PanelAction
  | [] => (s, [])
  | st :: sts =>
    let r := panelStep parse s st
    let rest := runPanel parse r.1 sts
    (rest.1, r.2 ++ rest.2)

/-- Number of capability-registration sends among a list of actions. -/
def countReg (acts : List PanelAction) : Nat :=
  acts.count (PanelAction.sendEvent sessionUpdate)

theorem handleOutputs_cons (parse : String → Option ParsedArgs)
    (s : PanelState) (o : FnOutput) (os : List FnOutput) :
    handleOutputs parse s (o :: os)
      = ((handleOutputs parse (handleOutput parse s o).1 os).1,
        (handleOutput parse s o).2
          ++ (handleOutputs parse (handleOutput parse s o).1 os).2) := rfl

theorem runPanel_cons (parse : String → Option ParsedArgs)
    (s : PanelState) (st : Stim) (sts : List Stim) :
    runPanel parse s (st :: sts)
      = ((runPanel parse (panelStep parse s st).1 sts).1,
        (panelStep parse s st).2
          ++ (runPanel parse (panelStep parse s st).1 sts).2) := rfl

theorem countReg_handleOutput (parse : String → Option ParsedArgs)
    (s : PanelState) (o : FnOutput) :
    countReg (handleOutput parse s o).2 = 0
      ∧ (handleOutput parse s o).1.functionAdded = s.functionAdded := by
  unfold handleOutput countReg
  by_cases hty : o.type = "function_call"
  · simp only [hty, if_true]
    cases hp : parse o.arguments with
    | none => simp
    | some p => by_cases hn : o.name = "control_snake" <;> simp [hn]
  · simp [hty]

theorem countReg_handleOutputs (parse : String → Option ParsedArgs) :
    ∀ (outs : List FnOutput) (s : PanelState),
      countReg (handleOutputs parse s outs).2 = 0
        ∧ (handleOutputs parse s outs).1.functionAdded = s.functionAdded := by
  intro outs
  induction outs with
  | nil => intro s; simp [handleOutputs, countReg]
  | cons o os ih =>
    intro s
    have h1 := countReg_handleOutput parse s o
    have h2 := ih (handleOutput parse s o).1
    rw [handleOutputs_cons]
    constructor
    · simp only [countReg, List.count_append] at *
      omega
    · simp only
      rw [h2.2, h1.2]

theorem registrationStep_spec (s : PanelState) (e : Event) :
    (s.functionAdded = true → registrationStep s e = (s, []))
      ∧ countReg (registrationStep s e).2 ≤ 1
      ∧ (countReg (registrationStep s e).2 = 1 →
          (registrationStep s e).1.functionAdded = true)
      ∧ (s.functionAdded = true → (registrationStep s e).1.functionAdded = true)
      ∧ (s.functionAdded = false → e.type = "session.created" →
          registrationStep s e
            = ({ s with functionAdded := true },
              [PanelAction.sendEvent sessionUpdate])) := by
  unfold registrationStep
  by_cases hcond : s.functionAdded = false ∧ e.type = "session.created"
  · rw [if_pos hcond]
    refine ⟨?_, by simp [countReg], fun _ => rfl, fun _ => rfl, fun _ _ => rfl⟩
    intro h
    rw [hcond.1] at h
    exact absurd h (by simp)
  · rw [if_neg hcond]
    refine ⟨fun _ => rfl, by simp [countReg], ?_, fun h => h, ?_⟩
    · intro h
      simp [countReg] at h
    · intro h1 h2
      exact absurd ⟨h1, h2⟩ hcond

theorem snakeCommandEffect_functionAdded (s : PanelState) (events : List Event) :
    (snakeCommandEffect s events).functionAdded = s.functionAdded := by
  unfold snakeCommandEffect
  cases events with
  | nil => rfl
  | cons e es => by_cases h : e.type = "snake.command" <;> simp [h]

theorem eventsEffect_nil (parse : String → Option ParsedArgs) (s : PanelState) :
    eventsEffect parse s [] = (s, []) := rfl

theorem eventsEffect_cons (parse : String → Option ParsedArgs) (s : PanelState)
    (mostRecent : Event) (rest : List Event) :
    eventsEffect parse s (mostRecent :: rest)
      = (if mostRecent.type = "response.done"
            ∧ (mostRecent.response.bind Response.output).isSome then
          ((handleOutputs parse
              (registrationStep s ((mostRecent :: rest).getLast (by simp))).1
              ((mostRecent.response.bind Response.output).getD [])).1,
            (registrationStep s ((mostRecent :: rest).getLast (by simp))).2
              ++ (handleOutputs parse
                (registrationStep s ((mostRecent :: rest).getLast (by simp))).1
                ((mostRecent.response.bind Response.output).getD [])).2)
        else registrationStep s ((mostRecent :: rest).getLast (by simp))) := rfl

theorem eventsEffect_reg (parse : String → Option ParsedArgs)
    (s : PanelState) (events : List Event) :
    countReg (eventsEffect parse s events).2 ≤ 1
      ∧ (countReg (eventsEffect parse s events).2 = 1 →
          (eventsEffect parse s events).1.functionAdded = true)
      ∧ (s.functionAdded = true →
          countReg (eventsEffect parse s events).2 = 0
            ∧ (eventsEffect parse s events).1.functionAdded = true) := by
  cases events with
  | nil =>
    rw [eventsEffect_nil]
    refine ⟨by simp [countReg], ?_, fun h => ⟨by simp [countReg], h⟩⟩
    intro h
    simp [countReg] at h
  | cons mostRecent rest =>
    have hr := registrationStep_spec s ((mostRecent :: rest).getLast (by simp))
    rw [eventsEffect_cons]
    by_cases hc : mostRecent.type = "response.done"
        ∧ (mostRecent.response.bind Response.output).isSome
    · rw [if_pos hc]
      have ho := countReg_handleOutputs parse
        ((mostRecent.response.bind Response.output).getD [])
        (registrationStep s ((mostRecent :: rest).getLast (by simp))).1
      simp only [countReg, List.count_append] at hr ho ⊢
      refine ⟨by omega, ?_, ?_⟩
      · intro h1
        rw [ho.2]
        exact hr.2.2.1 (by omega)
      · intro hf
        have h0 : (registrationStep s ((mostRecent :: rest).getLast (by simp))).2
            = ([] : List PanelAction) := by rw [hr.1 hf]
        refine ⟨?_, ?_⟩
        · rw [h0]
          simpa using ho.1
        · rw [ho.2]
          exact hr.2.2.2.1 hf
    · rw [if_neg hc]
      refine ⟨hr.2.1, hr.2.2.1, fun hf => ⟨?_, hr.2.2.2.1 hf⟩⟩
      rw [hr.1 hf]
      simp [countReg]

theorem panelStep_reg (parse : String → Option ParsedArgs)
    (s : PanelState) (st : Stim) :
    countReg (panelStep parse s st).2 ≤ 1
      ∧ (countReg (panelStep parse s st).2 = 1 →
          (panelStep parse s st).1.functionAdded = true)
      ∧ (st ≠ Stim.activeChanged false → s.functionAdded = true →
          countReg (panelStep parse s st).2 = 0
            ∧ (panelStep parse s st).1.functionAdded = true) := by
  cases st with
  | eventsChanged events =>
    have he := eventsEffect_reg parse s events
    unfold panelStep
    refine ⟨he.1, ?_, ?_⟩
    · intro h1
      rw [snakeCommandEffect_functionAdded]
      exact he.2.1 h1
    · intro _ hf
      refine ⟨(he.2.2 hf).1, ?_⟩
      rw [snakeCommandEffect_functionAdded]
      exact (he.2.2 hf).2
  | activeChanged b =>
    cases b with
    | false =>
      unfold panelStep
      refine ⟨by simp [countReg], by simp [countReg], ?_⟩
      intro hne _
      exact absurd rfl hne
    | true =>
      unfold panelStep
      exact ⟨by simp [countReg], by simp [countReg], fun _ hf => ⟨by simp [countReg], hf⟩⟩

theorem runPanel_reg (parse : String → Option ParsedArgs) :
    ∀ (stims : List Stim) (s : PanelState),
      (∀ st ∈ stims, st ≠ Stim.activeChanged false) →
      countReg (runPanel parse s stims).2 ≤ 1
        ∧ (s.functionAdded = true → countReg (runPanel parse s stims).2 = 0) := by
  intro stims
  induction stims with
  | nil => intro s _; exact ⟨by simp [runPanel, countReg], fun _ => by simp [runPanel, countReg]⟩
  | cons st sts ih =>
    intro s hnr
    have hst := panelStep_reg parse s st
    have hne : st ≠ Stim.activeChanged false := hnr st (List.mem_cons_self st sts)
    have ihr := ih (panelStep parse s st).1
      (fun x hx => hnr x (List.mem_cons_of_mem st hx))
    rw [runPanel_cons]
    simp only [countReg, List.count_append] at *
    constructor
    · by_cases hflag : s.functionAdded = true
      · have h0 := hst.2.2 hne hflag
        have h1 := ihr.2 h0.2
        omega
      · rcases Nat.le_one_iff_eq_zero_or_eq_one.mp hst.1 with h | h
        · omega
        · have hf := hst.2.1 h
          have h1 := ihr.2 hf
          omega
    · intro hflag
      have h0 := hst.2.2 hne hflag
      have h1 := ihr.2 h0.2
      omega

theorem panelStep_eventsChanged (parse : String → Option ParsedArgs)
    (s : PanelState) (events : List Event) :
    panelStep parse s (Stim.eventsChanged events)
      = (snakeCommandEffect (eventsEffect parse s events).1 events,
        (eventsEffect parse s events).2) := rfl

theorem panelStep_first_reg (parse : String → Option ParsedArgs)
    (s : PanelState) (events : List Event) (e : Event)
    (hflag : s.functionAdded = false)
    (hlast : events.getLast? = some e) (htype : e.type = "session.created") :
    countReg (panelStep parse s (Stim.eventsChanged events)).2 = 1
      ∧ (panelStep parse s (Stim.eventsChanged events)).1.functionAdded = true := by
  cases events with
  | nil => exact absurd hlast (by simp)
  | cons mostRecent rest =>
    have hgl : ((mostRecent :: rest).getLast (by simp)).type = "session.created" := by
      have h1 := List.getLast?_eq_getLast (mostRecent :: rest) (by simp)
      rw [h1] at hlast
      rw [Option.some.inj hlast]
      exact htype
    have hr := (registrationStep_spec s ((mostRecent :: rest).getLast (by simp))).2.2.2.2
      hflag hgl
    rw [panelStep_eventsChanged, eventsEffect_cons]
    by_cases hc : mostRecent.type = "response.done"
        ∧ (mostRecent.response.bind Response.output).isSome
    · rw [if_pos hc]
      have ho := countReg_handleOutputs parse
        ((mostRecent.response.bind Response.output).getD [])
        (registrationStep s ((mostRecent :: rest).getLast (by simp))).1
      rw [hr] at ho
      rw [hr]
      constructor
      · have h2 := ho.1
        simp only [countReg, List.count_append] at h2 ⊢
        simp [h2]
      · rw [snakeCommandEffect_functionAdded]
        rw [ho.2]
    · rw [if_neg hc, hr]
      exact ⟨by simp [countReg], by rw [snakeCommandEffect_functionAdded]⟩

/-- Claim C1: registration is sent at most once per session. Along any
sequence of effect rounds with no session-end notification, at most one
registration send occurs; from an unregistered state, the first round
whose events snapshot has a `session.created` as its oldest entry sends
exactly one registration and sets the flag; with the flag set no round
sends a registration and no round except the session-end notification
clears the flag; the session-end effect is what resets the flag. -/
theorem registration_at_most_once (parse : String → Option ParsedArgs)
    (stims : List Stim) (s : PanelState)
    (hnr : ∀ st ∈ stims, st ≠ Stim.activeChanged false)
    (hflag : s.functionAdded = false) :
    countReg (runPanel parse s stims).2 ≤ 1
      ∧ (∀ (u : PanelState) (events : List Event) (e : Event),
          u.functionAdded = false → events.getLast? = some e →
          e.type = "session.created" →
          countReg (panelStep parse u (Stim.eventsChanged events)).2 = 1
            ∧ (panelStep parse u (Stim.eventsChanged events)).1.functionAdded = true)
      ∧ (∀ (u : PanelState) (sts : List Stim),
          (∀ st ∈ sts, st ≠ Stim.activeChanged false) →
          u.functionAdded = true → countReg (runPanel parse u sts).2 = 0)
      ∧ (∀ (u : PanelState) (st : Stim), st ≠ Stim.activeChanged false →
          u.functionAdded = true → (panelStep parse u st).1.functionAdded = true)
      ∧ (∀ u : PanelState, (sessionInactiveEffect u).functionAdded = false) := by
  refine ⟨(runPanel_reg parse stims s hnr).1, ?_, ?_, ?_, ?_⟩
  · intro u events e hf hl ht
    exact panelStep_first_reg parse u events e hf hl ht
  · intro u sts hsts hf
    exact (runPanel_reg parse sts u hsts).2 hf
  · intro u st hne hf
    exact ((panelStep_reg parse u st).2.2 hne hf).2
  · intro u; rfl

/-- Witness for C1: a concrete trace delivering `session.created` twice
in one session produces exactly one registration send. -/
theorem registration_at_most_once_witness :
    let parse : String → Option ParsedArgs := fun _ => none
    let ev : Event := { event_id := some "event_1", type := "session.created" }
    (countReg (runPanel parse {}
          [Stim.eventsChanged [ev], Stim.eventsChanged [ev, ev]]).2 ≤ 1
      ∧ (∀ (u : PanelState) (events : List Event) (e : Event),
          u.functionAdded = false → events.getLast? = some e →
          e.type = "session.created" →
          countReg (panelStep parse u (Stim.eventsChanged events)).2 = 1
            ∧ (panelStep parse u (Stim.eventsChanged events)).1.functionAdded = true)
      ∧ (∀ (u : PanelState) (sts : List Stim),
          (∀ st ∈ sts, st ≠ Stim.activeChanged false) →
          u.functionAdded = true → countReg (runPanel parse u sts).2 = 0)
      ∧ (∀ (u : PanelState) (st : Stim), st ≠ Stim.activeChanged false →
          u.functionAdded = true → (panelStep parse u st).1.functionAdded = true)
      ∧ (∀ u : PanelState, (sessionInactiveEffect u).functionAdded = false)) := by
  intro parse ev
  refine registration_at_most_once parse
    [Stim.eventsChanged [ev], Stim.eventsChanged [ev, ev]] {} ?_ rfl
  intro st hst
  have hst2 : st = Stim.eventsChanged [ev] ∨ st = Stim.eventsChanged [ev, ev] := by
    simpa using hst
  rcases hst2 with rfl | rfl <;> simp

theorem handleOutput_parsed (parse : String → Option ParsedArgs)
    (s : PanelState) (o : FnOutput) (p : ParsedArgs)
    (hty : o.type = "function_call") (hp : parse o.arguments = some p) :
    handleOutput parse s o
      = (if o.name = "control_snake" then
          ({ s with
            functionCallOutput := some o,
            activeFunction := some o.name,
            snakeCommand := p.direction }, [])
        else
          ({ s with
            functionCallOutput := some o,
            activeFunction := some o.name },
            [PanelAction.schedule 500 (followUpEvent o.name)])) := by
  unfold handleOutput
  rw [if_pos hty, hp]

/-- Claim C2: a function-call output whose arguments do not parse yields
exactly the validation-error diagnostic and leaves the panel state
untouched (no handler state is set, nothing is scheduled, and — the
embedding being total — dispatch does not crash); in a batch, the
failing output contributes only its diagnostic while the remaining
outputs are processed exactly as if it were absent; and any well-formed
function-call output is still routed: its handler state is set to that
output and its name. -/
theorem validation_error_isolated (parse : String → Option ParsedArgs)
    (s : PanelState) (bad : FnOutput) (outs : List FnOutput)
    (hty : bad.type = "function_call") (hbad : parse bad.arguments = none) :
    handleOutput parse s bad = (s, [PanelAction.validationError bad.arguments])
      ∧ handleOutputs parse s (bad :: outs)
          = ((handleOutputs parse s outs).1,
            PanelAction.validationError bad.arguments
              :: (handleOutputs parse s outs).2)
      ∧ (∀ (good : FnOutput) (p : ParsedArgs), good.type = "function_call" →
          parse good.arguments = some p →
          (handleOutput parse s good).1.activeFunction = some good.name
            ∧ (handleOutput parse s good).1.functionCallOutput = some good) := by
  have h1 : handleOutput parse s bad = (s, [PanelAction.validationError bad.arguments]) := by
    unfold handleOutput
    rw [if_pos hty, hbad]
  refine ⟨h1, ?_, ?_⟩
  · rw [handleOutputs_cons, h1]
    rfl
  · intro good p hgty hgp
    rw [handleOutput_parsed parse s good p hgty hgp]
    by_cases hn : good.name = "control_snake"
    · rw [if_pos hn]
      exact ⟨rfl, rfl⟩
    · rw [if_neg hn]
      exact ⟨rfl, rfl⟩

/-- A concrete stand-in for `JSON.parse` in witnesses: exactly the
string "argsOk" parses, to arguments whose `direction` is "up". -/
def parseFix : String → Option ParsedArgs :=
  fun str => if str = "argsOk" then some { direction := some "up" } else none

/-- A function-call output with unparsable arguments, for witnesses. -/
def badOut : FnOutput :=
  { type := "function_call", name := "display_color_palette", arguments := "oops" }

/-- A well-formed palette function-call output, for witnesses. -/
def goodOut : FnOutput :=
  { type := "function_call", name := "display_color_palette", arguments := "argsOk" }

/-- A well-formed snake function-call output, for witnesses. -/
def snakeOut : FnOutput :=
  { type := "function_call", name := "control_snake", arguments := "argsOk" }

/-- Witness for C2: the concrete batch [badOut, goodOut] — the bad
output records only its diagnostic and the good sibling is still
processed from the same state. -/
theorem validation_error_isolated_witness :
    handleOutput parseFix {} badOut = ({}, [PanelAction.validationError badOut.arguments])
      ∧ handleOutputs parseFix {} (badOut :: [goodOut])
          = ((handleOutputs parseFix {} [goodOut]).1,
            PanelAction.validationError badOut.arguments
              :: (handleOutputs parseFix {} [goodOut]).2)
      ∧ (∀ (good : FnOutput) (p : ParsedArgs), good.type = "function_call" →
          parseFix good.arguments = some p →
          (handleOutput parseFix {} good).1.activeFunction = some good.name
            ∧ (handleOutput parseFix {} good).1.functionCallOutput = some good) :=
  validation_error_isolated parseFix {} badOut [goodOut] rfl (by decide)

/-- Claim C6: a parsed function-call output to the interactive
`control_snake` capability forwards the parsed `direction` as the live
snake command and schedules no follow-up (and sends nothing inline); a
parsed output to either non-interactive capability leaves the snake
command alone and schedules — deferred, one-shot, 500 ms, not an inline
send — the feedback follow-up `response.create`. -/
theorem routing_interactive_vs_deferred (parse : String → Option ParsedArgs)
    (s : PanelState) (o : FnOutput) (p : ParsedArgs)
    (hty : o.type = "function_call") (hp : parse o.arguments = some p) :
    (o.name = "control_snake" →
        handleOutput parse s o
          = ({ s with
              functionCallOutput := some o,
              activeFunction := some o.name,
              snakeCommand := p.direction }, []))
      ∧ ((o.name = "display_color_palette" ∨ o.name = "create_pixel_art") →
        handleOutput parse s o
          = ({ s with
              functionCallOutput := some o,
              activeFunction := some o.name },
            [PanelAction.schedule 500 (followUpEvent o.name)])) := by
  rw [handleOutput_parsed parse s o p hty hp]
  constructor
  · intro hn
    rw [if_pos hn]
  · intro hn
    have hne : o.name ≠ "control_snake" := by
      rcases hn with h | h <;> rw [h] <;> decide
    rw [if_neg hne]

/-- Witness for C6: concrete outputs — `control_snake` forwards "up"
with no scheduled action; `display_color_palette` schedules the
deferred follow-up. -/
theorem routing_interactive_vs_deferred_witness :
    ((snakeOut.name = "control_snake" →
        handleOutput parseFix {} snakeOut
          = ({
              functionCallOutput := some snakeOut,
              activeFunction := some snakeOut.name,
              snakeCommand := some "up" }, []))
      ∧ ((snakeOut.name = "display_color_palette" ∨ snakeOut.name = "create_pixel_art") →
        handleOutput parseFix {} snakeOut
          = ({
              functionCallOutput := some snakeOut,
              activeFunction := some snakeOut.name },
            [PanelAction.schedule 500 (followUpEvent snakeOut.name)])))
      ∧ ((goodOut.name = "control_snake" →
        handleOutput parseFix {} goodOut
          = ({
              functionCallOutput := some goodOut,
              activeFunction := some goodOut.name,
              snakeCommand := some "up" }, []))
      ∧ ((goodOut.name = "display_color_palette" ∨ goodOut.name = "create_pixel_art") →
        handleOutput parseFix {} goodOut
          = ({
              functionCallOutput := some goodOut,
              activeFunction := some goodOut.name },
            [PanelAction.schedule 500 (followUpEvent goodOut.name)]))) :=
  ⟨routing_interactive_vs_deferred parseFix {} snakeOut { direction := some "up" }
      rfl (by decide),
    routing_interactive_vs_deferred parseFix {} goodOut { direction := some "up" }
      rfl (by decide)⟩

/-! ## Deferred follow-ups across stop (claim C7)

`setTimeout` callbacks scheduled by ToolPanel live outside the React
state; `stopSession` contains no `clearTimeout`. The callback closes
over `sendClientEvent` and hence over the `dataChannel` reference that
was current when the follow-up was scheduled. -/

/-- A follow-up send scheduled with `setTimeout` and not yet fired;
`capturedChannel` is the channel reference captured by the closure. -/
structure PendingSend where
  delayMs : Nat
  capturedChannel : Option Nat
  message : Event
deriving DecidableEq

/-- App state together with the set of channels on which `close()` has
been called and the scheduled-but-unfired timeout callbacks. -/
structure SysState where
  app : AppState := {}
  closedChannels : List Nat := []
  pending : List PendingSend := []
deriving DecidableEq

/-- `stopSession` at the system level: the `close()` call marks the
current channel closed and the App state changes as in `stopSession`;
the code has no `clearTimeout`, so the timer queue is carried over
unchanged. -/
def stopSessionSys (sys : SysState) : SysState :=
  { app := (stopSession sys.app).1,
    closedChannels :=
      (match sys.app.dataChannel with
        | some id => [id]
        | none => []) ++ sys.closedChannels,
    pending := sys.pending }

/-- Outcome of a pending timeout firing: the callback calls
`sendClientEvent`; with a null captured channel the error-diagnostic
branch runs; with a captured channel that has been closed,
`dataChannel.send` throws; otherwise the send proceeds. -/
inductive FireResult where
  | noChannel
  | sendThrew
  | sentFollowUp
deriving DecidableEq

/-- Firing one pending timeout callback against the current closed-set. -/
def fireFollowUp (closedChannels : List Nat) (p : PendingSend) : FireResult :=
  match p.capturedChannel with
  | none => .noChannel
  | some id => if id ∈ closedChannels then .sendThrew else .sentFollowUp

/-- Counterexample to claim C7 as stated: stopping a session with a
scheduled-but-unfired follow-up does not cancel it — the pending queue
after `stopSession` is not empty (there is no `clearTimeout` anywhere in
`stopSession`). -/
theorem stop_cancels_followup_cex :
    (stopSessionSys
        { app := {
            isSessionActive := true,
            dataChannel := some 0,
            peerConnection := some 1 },
          pending := [{
            delayMs := 500,
            capturedChannel := some 0,
            message := followUpEvent "display_color_palette" }] }).pending ≠ [] := by
  decide

/-- Claim C7 (amended): `stopSession` leaves every scheduled follow-up
pending — nothing is cancelled — and a pending follow-up that captured
the session's channel, when it later fires, has its send attempt throw
against the now-closed channel instead of transmitting; the App no
longer holds a channel. -/
theorem stop_leaves_followup_pending (sys : SysState) (id : Nat)
    (hch : sys.app.dataChannel = some id) :
    (stopSessionSys sys).pending = sys.pending
      ∧ (∀ p ∈ sys.pending, p.capturedChannel = some id →
          fireFollowUp (stopSessionSys sys).closedChannels p = FireResult.sendThrew)
      ∧ (stopSessionSys sys).app.dataChannel = none := by
  refine ⟨rfl, ?_, rfl⟩
  intro p _ hcap
  unfold fireFollowUp
  rw [hcap]
  have hmem : id ∈ (stopSessionSys sys).closedChannels := by
    unfold stopSessionSys
    rw [hch]
    simp
  show (if id ∈ (stopSessionSys sys).closedChannels then FireResult.sendThrew
    else FireResult.sentFollowUp) = FireResult.sendThrew
  rw [if_pos hmem]

/-- Witness for the amended C7 at a concrete system state with one
pending follow-up. -/
theorem stop_leaves_followup_pending_witness :
    let sys : SysState :=
      { app := {
          isSessionActive := true,
          dataChannel := some 0,
          peerConnection := some 1 },
        pending := [{
          delayMs := 500,
          capturedChannel := some 0,
          message := followUpEvent "display_color_palette" }] }
    (stopSessionSys sys).pending = sys.pending
      ∧ (∀ p ∈ sys.pending, p.capturedChannel = some 0 →
          fireFollowUp (stopSessionSys sys).closedChannels p = FireResult.sendThrew)
      ∧ (stopSessionSys sys).app.dataChannel = none := by
  intro sys
  exact stop_leaves_followup_pending sys 0 rfl

end RealtimeConsole
